import Mathlib

/-!
Verification development for the vcloud.zip link-resolution pipeline
(`process_vcloud_links_parallel.py` and its single-link variant `test.py`).

The Python source is shallowly embedded over `List Char` strings:
pure string helpers from `urllib.parse` and `base64` are modelled
byte-for-byte on ASCII data, the regex scrapes are modelled as leftmost-match
searches with the exact character classes of the source patterns, HTTP is an
explicit environment (a function from request URL to response), and the JSON
document is a tagged tree.  All definitions are structurally recursive so
that concrete runs reduce by `rfl`/`decide`.
-/

/-! ### String literal constants used by the source -/

def urlKey : List Char := "url".data

def vcloudMarker : List Char := "vcloud.zip".data

def apiMarker : List Char := "/api/".data

def captchaMarker : List Char := "google.com/sorry".data

def httpLit : List Char := "http://".data

def httpsLit : List Char := "https://".data

def cdnLit : List Char := ".cdn.ampproject.org".data

def ampLit : List Char := "ampproject".data

def hrefPat : List Char := "href=\"https://vcloud.zip/".data

def vcloudBase : List Char := "https://vcloud.zip/".data

def fooPat : List Char := "foo/".data

def re2Pat : List Char := "re2/".data

def contPat : List Char := "continue=".data

def urlEqPat : List Char := "url=".data

def startEqPat : List Char := "start=".data

def startName : List Char := "start".data

def idName : List Char := "id".data

def rName : List Char := "r".data

def hubBase : List Char := "https://hubcloud.one/tg//go?id=".data

/-! ### Basic character and list helpers -/

/-- Python `re` ASCII whitespace class `\s`: space, tab, LF, CR, VT, FF. -/
def isPyWS (c : Char) : Bool :=
  c = ' ' || c = '\t' || c = '\n' || c = '\r' || c = '\x0b' || c = '\x0c'

/-- Python substring test `pat in s`. -/
def containsSub (pat : List Char) : List Char → Bool
  | [] => pat.isEmpty
  | c :: cs => pat.isPrefixOf (c :: cs) || containsSub pat cs

/-- Split a list at the first occurrence of character `t` (Python
`s.split(t, 1)` when `t` occurs); `none` when `t` does not occur. -/
def splitFirstChar (t : Char) : List Char → Option (List Char × List Char)
  | [] => none
  | c :: cs =>
    if c = t then some ([], cs)
    else (splitFirstChar t cs).map (fun p => (c :: p.1, p.2))

/-- Python `s.split('&')` (always at least one segment). -/
def splitAmp : List Char → List (List Char)
  | [] => [[]]
  | c :: cs =>
    match splitAmp cs with
    | [] => [[]]
    | r :: rs => if c = '&' then [] :: r :: rs else (c :: r) :: rs

/-! ### Percent-decoding: `urllib.parse.unquote` / `unquote_plus`

`unquote` turns maximal runs of `%XX` escapes into byte runs, decodes each
run as UTF-8 with `errors='replace'`, and passes all other characters
through unchanged; an invalid escape is kept literally.  `unquote_plus`
first replaces `+` with a space (HTML-form semantics). -/

def hexVal? (c : Char) : Option Nat :=
  let n := c.toNat
  if 48 ≤ n && n ≤ 57 then some (n - 48)
  else if 65 ≤ n && n ≤ 70 then some (n - 55)
  else if 97 ≤ n && n ≤ 102 then some (n - 87)
  else none

def contOk (n : Nat) : Bool := 128 ≤ n && n ≤ 191

def cont2Ok (b b2 : Nat) : Bool :=
  if b = 224 then 160 ≤ b2 && b2 ≤ 191
  else if b = 237 then 128 ≤ b2 && b2 ≤ 159
  else contOk b2

def cont3Ok (b b2 : Nat) : Bool :=
  if b = 240 then 144 ≤ b2 && b2 ≤ 191
  else if b = 244 then 128 ≤ b2 && b2 ≤ 143
  else contOk b2

/-- The Unicode replacement character emitted by `errors='replace'`. -/
def replChar : Char := Char.ofNat 0xFFFD

/-- Classify a UTF-8 lead byte: `(continuations needed, initial accumulator,
lower and upper bound for the next byte)`, or `none` for an invalid lead. -/
def u8classify (b : Nat) : Option (Nat × Nat × Nat × Nat) :=
  if 194 ≤ b && b ≤ 223 then some (1, b - 192, 128, 191)
  else if b = 224 then some (2, 0, 160, 191)
  else if b = 237 then some (2, 13, 128, 159)
  else if 225 ≤ b && b ≤ 239 then some (2, b - 224, 128, 191)
  else if b = 240 then some (3, 0, 144, 191)
  else if b = 244 then some (3, 4, 128, 143)
  else if 241 ≤ b && b ≤ 243 then some (3, b - 240, 128, 191)
  else none

/-- UTF-8 decoding automaton with `errors='replace'` (the WHATWG scheme that
CPython implements): `needed` pending continuation bytes, accumulator `acc`,
and bounds `lo`/`hi` for the next byte.  A byte that breaks a pending
sequence yields one replacement character and is then reclassified. -/
def u8run : Nat → Nat → Nat → Nat → List Nat → List Char
  | 0, _, _, _, [] => []
  | _ + 1, _, _, _, [] => [replChar]
  | 0, _, _, _, b :: bs =>
    if b ≤ 127 then Char.ofNat b :: u8run 0 0 0 0 bs
    else
      match u8classify b with
      | some (n, a, lo, hi) => u8run n a lo hi bs
      | none => replChar :: u8run 0 0 0 0 bs
  | needed + 1, acc, lo, hi, b :: bs =>
    if lo ≤ b && b ≤ hi then
      if needed = 0 then Char.ofNat (acc * 64 + (b - 128)) :: u8run 0 0 0 0 bs
      else u8run needed (acc * 64 + (b - 128)) 128 191 bs
    else
      replChar ::
        (if b ≤ 127 then Char.ofNat b :: u8run 0 0 0 0 bs
         else
           match u8classify b with
           | some (n, a, lo2, hi2) => u8run n a lo2 hi2 bs
           | none => replChar :: u8run 0 0 0 0 bs)

/-- UTF-8 decoding with `errors='replace'` (`bytes.decode('utf-8', 'replace')`). -/
def utf8DecodeRepl (bs : List Nat) : List Char := u8run 0 0 0 0 bs

/-- Strict UTF-8 decoding (`bytes.decode('utf-8')`): `none` on any invalid
sequence, overlong form or surrogate. -/
def utf8DecodeStrict : List Nat → Option (List Char)
  | [] => some []
  | b :: bs =>
    if b ≤ 127 then (utf8DecodeStrict bs).map (fun r => Char.ofNat b :: r)
    else if 194 ≤ b && b ≤ 223 then
      match bs with
      | b2 :: rest =>
        if contOk b2 then
          (utf8DecodeStrict rest).map (fun r => Char.ofNat ((b - 192) * 64 + (b2 - 128)) :: r)
        else none
      | [] => none
    else if 224 ≤ b && b ≤ 239 then
      match bs with
      | b2 :: b3 :: rest =>
        if cont2Ok b b2 && contOk b3 then
          (utf8DecodeStrict rest).map
            (fun r => Char.ofNat ((b - 224) * 4096 + (b2 - 128) * 64 + (b3 - 128)) :: r)
        else none
      | _ => none
    else if 240 ≤ b && b ≤ 244 then
      match bs with
      | b2 :: b3 :: b4 :: rest =>
        if cont3Ok b b2 && contOk b3 && contOk b4 then
          (utf8DecodeStrict rest).map
            (fun r =>
              Char.ofNat ((b - 240) * 262144 + (b2 - 128) * 4096 + (b3 - 128) * 64 + (b4 - 128))
                :: r)
        else none
      | _ => none
    else none

/-- Scanner state while recognising `%XX` escapes: outside an escape, after
a `%`, or after `%h` with the first hex digit `h` (of value `a`). -/
inductive PctSt where
  | plain : PctSt
  | pct : PctSt
  | pctHex : Char → Nat → PctSt

/-- Literal characters owed when the input ends inside a partial escape. -/
def pctFlush : PctSt → List (Sum Nat Char)
  | .plain => []
  | .pct => [Sum.inr '%']
  | .pctHex h1 _ => [Sum.inr '%', Sum.inr h1]

/-- Tokenise a string into decoded escape bytes (`Sum.inl`) and literal
characters (`Sum.inr`); an incomplete `%` escape is kept literally, exactly
as CPython `urllib.parse.unquote` does. -/
def pctTok : PctSt → List Char → List (Sum Nat Char)
  | st, [] => pctFlush st
  | .plain, c :: cs =>
    if c = '%' then pctTok .pct cs else Sum.inr c :: pctTok .plain cs
  | .pct, c :: cs =>
    match hexVal? c with
    | some a => pctTok (.pctHex c a) cs
    | none =>
      Sum.inr '%' :: (if c = '%' then pctTok .pct cs else Sum.inr c :: pctTok .plain cs)
  | .pctHex h1 a, c :: cs =>
    match hexVal? c with
    | some b => Sum.inl (16 * a + b) :: pctTok .plain cs
    | none =>
      Sum.inr '%' :: Sum.inr h1 ::
        (if c = '%' then pctTok .pct cs else Sum.inr c :: pctTok .plain cs)

/-- Collect each maximal run of escape bytes (`run` is reversed) and decode
it as UTF-8 with replacement; literal characters pass through unchanged. -/
def detokAux : List Nat → List (Sum Nat Char) → List Char
  | run, [] => utf8DecodeRepl run.reverse
  | run, Sum.inl b :: rest => detokAux (b :: run) rest
  | run, Sum.inr c :: rest => utf8DecodeRepl run.reverse ++ c :: detokAux [] rest

/-- `urllib.parse.unquote`: percent-decoding with `+` left untouched. -/
def unquote (s : List Char) : List Char := detokAux [] (pctTok .plain s)

/-- `urllib.parse.unquote_plus`: `+` becomes a space, then percent-decode.
This is the decode the source applies to the `/re2/` payload and to the
`r` parameter before base64-decoding them. -/
def unquote_plus (s : List Char) : List Char :=
  unquote (s.map (fun c => if c = '+' then ' ' else c))

/-! ### Base64: `base64.b64decode` (default `validate=False`)

Characters outside the alphabet and `=` are discarded, then the kept text
must be properly padded groups of four; decodes to a byte list. -/

def b64Val? (c : Char) : Option Nat :=
  let n := c.toNat
  if 65 ≤ n && n ≤ 90 then some (n - 65)
  else if 97 ≤ n && n ≤ 122 then some (n - 71)
  else if 48 ≤ n && n ≤ 57 then some (n + 4)
  else if c = '+' then some 62
  else if c = '/' then some 63
  else none

def b64Keep (c : Char) : Bool := (b64Val? c).isSome || c = '='

def b64Quads : List Char → Option (List Nat)
  | [] => some []
  | a :: b :: c :: d :: rest =>
    match b64Val? a, b64Val? b with
    | some va, some vb =>
      if c = '=' then
        if d = '=' && rest.isEmpty then some [va * 4 + vb / 16] else none
      else
        match b64Val? c with
        | some vc =>
          if d = '=' then
            if rest.isEmpty then some [va * 4 + vb / 16, (vb % 16) * 16 + vc / 4] else none
          else
            match b64Val? d with
            | some vd =>
              (b64Quads rest).map
                (fun r =>
                  (va * 4 + vb / 16) :: ((vb % 16) * 16 + vc / 4) :: ((vc % 4) * 64 + vd) :: r)
            | none => none
        | none => none
    | _, _ => none
  | _ => none

def b64decode (s : List Char) : Option (List Nat) :=
  let kept := s.filter b64Keep
  if kept.length % 4 = 0 then b64Quads kept else none

example : unquote ("a%2Bb".data) = "a+b".data := by decide
example : unquote_plus ("a+b".data) = "a b".data := by decide
example : unquote ("a+b".data) = "a+b".data := by decide
example : b64decode ("+w==".data) = some [251] := by decide
example : b64decode (" w==".data) = none := by decide
example : utf8DecodeStrict [104, 105] = some ("hi".data) := by decide

/-! ### Leftmost-match searches for the source's regex scrapes

Each Python regex used by the source has the shape "literal pattern, then a
character-class run"; `re.search` takes the leftmost position where the
whole pattern (including a non-empty run, for `+` quantifiers) matches, and
the run is maximal. -/

/-- Model of `re.search(pat ++ "([^stop]*)", s)` (`req = false`) and of
`re.search(pat ++ "([^stop]+)", s)` (`req = true`): leftmost occurrence of
`pat`, capturing the maximal run of characters on which `stop` is false;
with `req` a position whose capture is empty does not match and the scan
continues. -/
def searchCap (pat : List Char) (stop : Char → Bool) (req : Bool) : List Char → Option (List Char)
  | [] => none
  | c :: cs =>
    if pat.isPrefixOf (c :: cs) then
      let cap := ((c :: cs).drop pat.length).takeWhile (fun x => !stop x)
      if req && cap.isEmpty then searchCap pat stop req cs else some cap
    else searchCap pat stop req cs

/-- Model of `re.search("[?&]" ++ name ++ "=([^stop]*/+)", s)`: like
`searchCap` but the pattern must be preceded by `?` or `&`. -/
def searchParam (name : List Char) (stop : Char → Bool) (req : Bool) : List Char → Option (List Char)
  | [] => none
  | c :: cs =>
    if (c = '?' || c = '&') && (name ++ ['=']).isPrefixOf cs then
      let cap := (cs.drop (name.length + 1)).takeWhile (fun x => !stop x)
      if req && cap.isEmpty then searchParam name stop req cs else some cap
    else searchParam name stop req cs

/-- Character class `[^\s"<>']` of the AMP-URL regexes. -/
def ampAllowed (c : Char) : Bool :=
  !(isPyWS c || c = '"' || c = '<' || c = '>' || c = Char.ofNat 39)

/-- Model of `re.search("https://[^\s"<>']*" ++ lit ++ "[^\s"<>']*", s)`
(and of the first element of the corresponding `re.findall`): leftmost
`https://` whose following maximal allowed run contains `lit`; the match is
`https://` plus that whole run (the greedy stars absorb it entirely). -/
def searchAmp (lit : List Char) : List Char → Option (List Char)
  | [] => none
  | c :: cs =>
    if httpsLit.isPrefixOf (c :: cs) then
      let run := ((c :: cs).drop 8).takeWhile ampAllowed
      if containsSub lit run then some (httpsLit ++ run) else searchAmp lit cs
    else searchAmp lit cs

/-- Character class `[^\s'"<>]` of the `href` regex. -/
def hrefOk (c : Char) : Bool :=
  !(isPyWS c || c = Char.ofNat 39 || c = '"' || c = '<' || c = '>')

/-- Model of `re.search('href="(https://vcloud\.zip/[^\s'"<>]+)"', s)`:
leftmost `href="https://vcloud.zip/` followed by a non-empty allowed run
that is terminated by a closing double quote; the capture is the URL. -/
def searchHref : List Char → Option (List Char)
  | [] => none
  | c :: cs =>
    if hrefPat.isPrefixOf (c :: cs) then
      let rest := (c :: cs).drop hrefPat.length
      let cap := rest.takeWhile hrefOk
      if cap.isEmpty then searchHref cs
      else
        match rest.drop cap.length with
        | q :: _ => if q = '"' then some (vcloudBase ++ cap) else searchHref cs
        | [] => searchHref cs
    else searchHref cs

/-- Character class `[^\'"&\s<>]` of the body `start=`/`url=` regexes. -/
def qStop (c : Char) : Bool :=
  isPyWS c || c = Char.ofNat 39 || c = '"' || c = '&' || c = '<' || c = '>'

/-- Character class `[^&\s\'"<>#]` of the raw-URL `start=` regex. -/
def qStopHash (c : Char) : Bool := qStop c || c = '#'

/-- Stop class `[^&]` (captures of `id=`, `r=`, `continue=`). -/
def ampStop (c : Char) : Bool := c = '&'

/-- Stop class `[^/]` (captures of `foo/` and `re2/`). -/
def slashStop (c : Char) : Bool := c = '/'

/-! ### `urllib.parse.urlsplit` and `parse_qs` -/

structure UrlParts where
  scheme : List Char
  netloc : List Char
  path : List Char
  query : List Char
  frag : List Char
deriving DecidableEq

/-- Valid characters of a URL scheme after the first (alphabetic) one. -/
def schemeOk (c : Char) : Bool := c.isAlphanum || c = '+' || c = '-' || c = '.'

def headIsAlpha : List Char → Bool
  | [] => false
  | c :: _ => c.isAlpha

/-- Model of `urllib.parse.urlparse` restricted to the components the
source uses (scheme, netloc, query): split a valid scheme at the first
colon, then `//netloc` up to `/`, `?` or `#`, then the fragment at the
first `#`, then the query at the first `?`. -/
def urlsplit (s : List Char) : UrlParts :=
  let p1 :=
    match splitFirstChar ':' s with
    | some (pre, post) =>
      if headIsAlpha pre && pre.all schemeOk then (pre.map Char.toLower, post) else ([], s)
    | none => ([], s)
  let scheme := p1.1
  let p2 :=
    if ['/', '/'].isPrefixOf p1.2 then
      let t := p1.2.drop 2
      let nl := t.takeWhile (fun c => !(c = '/' || c = '?' || c = '#'))
      (nl, t.drop nl.length)
    else ([], p1.2)
  let netloc := p2.1
  let p3 :=
    match splitFirstChar '#' p2.2 with
    | some pr => pr
    | none => (p2.2, [])
  let p4 :=
    match splitFirstChar '?' p3.1 with
    | some pr => pr
    | none => (p3.1, [])
  ⟨scheme, netloc, p4.1, p4.2, p3.2⟩

/-- Model of `urllib.parse.parse_qsl` with default arguments: split the
query on `&`, skip empty segments, skip segments without `=`, skip pairs
whose raw value is empty, and decode names and values with plus-as-space
percent-decoding.  `parse_qs` groups these pairs in order. -/
def parseQsl (query : List Char) : List (List Char × List Char) :=
  (splitAmp query).filterMap fun nv =>
    if nv.isEmpty then none
    else
      match splitFirstChar '=' nv with
      | none => none
      | some (n, v) => if v.isEmpty then none else some (unquote_plus n, unquote_plus v)

/-- `parse_qs(urlparse(url).query).get('start', [])[0]`: the first
`start` entry of the parsed query, if any. -/
def startFromUrl (url : List Char) : Option (List Char) :=
  match (parseQsl (urlsplit url).query).find? (fun p => p.1 = startName) with
  | some p => some p.2
  | none => none

/-- Token extraction from the terminal response of the redirect chain:
first the `start` query parameter of the final URL, then a `start=` match
in the body (percent-decoded), then a raw `[?&]start=` match on the final
URL text (percent-decoded); `none` models `ValueError`. -/
def extractStart (finalUrl bodyText : List Char) : Option (List Char) :=
  match startFromUrl finalUrl with
  | some v => some v
  | none =>
    match searchCap startEqPat qStop true bodyText with
    | some cap => some (unquote cap)
    | none =>
      match searchParam startName qStopHash true finalUrl with
      | some cap => some (unquote cap)
      | none => none

example : startFromUrl ("http://h/p?start=a+b&start=c".data) = some ("a b".data) := by decide
example : startFromUrl ("http://h/p?start=".data) = none := by decide
example : extractStart ("http://h/p?x=1".data) ("zz start=ABC123 yy".data) = some ("ABC123".data) := by
  decide
example : extractStart ("http://h/p?start=".data) [] = none := by decide
example : extractStart ("http://h/p#?start=Q".data) [] = some ("Q".data) := by decide

/-! ### Redirect-chain follower (`follow_redirect_chain_and_extract_start`)

HTTP is an explicit environment `fetch : url → response` (one GET with
`follow_redirects=False`); `response.url` of `httpx` is the requested URL,
so the model carries the current URL alongside the response. -/

structure HttpResponse where
  location : Option (List Char)
  text : List Char

/-- Resolution of a body `url=` capture, as in the source: percent-decode,
and if the result does not start with `http://` or `https://`, prefix the
scheme and netloc of the response's own URL. -/
def metaResolve (reqUrl cap : List Char) : List Char :=
  let m := unquote cap
  if httpLit.isPrefixOf m || httpsLit.isPrefixOf m then m
  else (urlsplit reqUrl).scheme ++ [':', '/', '/'] ++ (urlsplit reqUrl).netloc ++ m

/-- The next URL the loop adopts from a response: a non-empty `Location`
header, else the first `url=` capture of the body (resolved), else `none`
(terminal response).  The emptiness test models Python's `if location:`. -/
def nextHop (reqUrl : List Char) (r : HttpResponse) : Option (List Char)  :=
  let meta :=
    match searchCap urlEqPat qStop true r.text with
    | some cap => some (metaResolve reqUrl cap)
    | none => none
  match r.location with
  | some loc => if loc.isEmpty then meta else some loc
  | none => meta

/-- The fetch loop: at most `fuel + 1` requests (the source checks
`redirect_count < max_redirects` before each request, with
`max_redirects = 10`, so the initial call uses `fuel = 9`).  Returns the
URL of the last request made and its response. -/
def followLoop (fetch : List Char → HttpResponse) : Nat → List Char → List Char × HttpResponse
  | fuel, url =>
    let r := fetch url
    match nextHop url r with
    | none => (url, r)
    | some nxt =>
      match fuel with
      | 0 => (url, r)
      | f + 1 => followLoop fetch f nxt

/-- The list of URLs actually requested by `followLoop` (same traversal). -/
def followTrace (fetch : List Char → HttpResponse) : Nat → List Char → List (List Char)
  | fuel, url =>
    match nextHop url (fetch url) with
    | none => [url]
    | some nxt =>
      match fuel with
      | 0 => [url]
      | f + 1 => url :: followTrace fetch f nxt

/-- `follow_redirect_chain_and_extract_start`: follow the chain (bound 10
requests) and extract the `start` token from the terminal response;
`none` models the `ValueError` raised when no source yields a token. -/
def follow_redirect_chain_and_extract_start
    (fetch : List Char → HttpResponse) (u : List Char) : Option (List Char) :=
  let p := followLoop fetch 9 u
  extractStart p.1 p.2.text

/-! ### Link resolution protocol (`get_hubcloud_url_from_vcloud`)

The environment bundles the three kinds of request the source makes:
`page url` is the body text of a plain GET, `finalUrl url` is
`str(response.url)` of a GET with `follow_redirects=True`, and `resp url`
is the GET with redirects disabled used by the follower. -/

structure HttpEnv where
  page : List Char → List Char
  finalUrl : List Char → List Char
  resp : List Char → HttpResponse

inductive ResolveErr where
  | extraction : ResolveErr
  | decode : ResolveErr
deriving DecidableEq

/-- Step 2 of the protocol: the exact `.cdn.ampproject.org` regex first,
falling back to the first loose `ampproject` URL. -/
def getAmpUrl (html : List Char) : Option (List Char) :=
  match searchAmp cdnLit html with
  | some a => some a
  | none => searchAmp ampLit html

/-- Decode an `r=` capture: `unquote_plus`, base64-decode, UTF-8 decode. -/
def rDecode (rp : List Char) : Except ResolveErr (List Char) :=
  match b64decode (unquote_plus rp) with
  | none => .error .decode
  | some bytes =>
    match utf8DecodeStrict bytes with
    | none => .error .decode
    | some r => .ok r

/-- The `/re2/` branch shared by the captcha and non-captcha paths: decode
the `re2/` payload when present and extract and decode its `r` parameter
(error when `r` is absent there); otherwise decode a direct `r` parameter;
otherwise return the URL itself. -/
def re2Extract (u : List Char) : Except ResolveErr (List Char) :=
  match searchCap re2Pat slashStop true u with
  | some cap =>
    match b64decode (unquote_plus cap) with
    | none => .error .decode
    | some bytes =>
      match utf8DecodeStrict bytes with
      | none => .error .decode
      | some decodedRe2 =>
        match searchParam rName ampStop false decodedRe2 with
        | some rp => rDecode rp
        | none => .error .extraction
  | none =>
    match searchParam rName ampStop false u with
    | some rp => rDecode rp
    | none => .ok u

/-- `get_hubcloud_url_from_vcloud`: the staged protocol producing the URL
handed to the redirect follower.  `ValueError` sites are `Except.error`. -/
def get_hubcloud_url_from_vcloud (env : HttpEnv) (vcloudUrl : List Char) :
    Except ResolveErr (List Char) :=
  let step0 : Except ResolveErr (List Char) :=
    if containsSub apiMarker vcloudUrl then
      match searchHref (env.page vcloudUrl) with
      | some u => .ok u
      | none => .error .extraction
    else .ok vcloudUrl
  match step0 with
  | .error e => .error e
  | .ok url =>
    match getAmpUrl (env.page url) with
    | none => .error .extraction
    | some ampUrl =>
      match searchCap fooPat slashStop false ampUrl with
      | none => .error .extraction
      | some b64part =>
        match b64decode b64part with
        | none => .error .decode
        | some bytes =>
          match utf8DecodeStrict bytes with
          | none => .error .decode
          | some decodedUrl =>
            match searchParam idName ampStop false decodedUrl with
            | none => .error .extraction
            | some idValue =>
              let finalUrl := env.finalUrl (hubBase ++ idValue)
              if containsSub captchaMarker finalUrl then
                match searchCap contPat ampStop false finalUrl with
                | none => .error .extraction
                | some cc => re2Extract (unquote cc)
              else re2Extract finalUrl

/-- The two pipelined phases of `process_vcloud_link`, with every raised
error propagated as an `Except.error`. -/
def resolvePipeline (env : HttpEnv) (url : List Char) : Except ResolveErr (List Char) :=
  match get_hubcloud_url_from_vcloud env url with
  | .error e => .error e
  | .ok r =>
    match follow_redirect_chain_and_extract_start env.resp r with
    | some s => .ok s
    | none => .error .extraction

/-- `process_vcloud_link`: the whole pipeline under the source's
`try/except Exception`, which converts every error into `None`. -/
def process_vcloud_link (env : HttpEnv) (url : List Char) : Option (List Char) :=
  match resolvePipeline env url with
  | .ok t => some t
  | .error _ => none

/-! ### JSON document model, locator and updaters -/

inductive Json where
  | null
  | bool (b : Bool)
  | num (n : Int)
  | str (s : List Char)
  | arr (elems : List Json)
  | obj (members : List (List Char × Json))

def isArrJ : Json → Bool
  | .arr _ => true
  | _ => false

/-- Association-list lookup modelling Python dict lookup / membership. -/
def lookupMap : List (List Char × List Char) → List Char → Option (List Char)
  | [], _ => none
  | p :: rest, k => if p.1 = k then some p.2 else lookupMap rest k

/-- Python dict assignment `d[k] = v`: replace in place, else append. -/
def insertMap : List (List Char × List Char) → List Char → List Char → List (List Char × List Char)
  | [], k, v => [(k, v)]
  | p :: rest, k, v => if p.1 = k then (k, v) :: rest else p :: insertMap rest k v

mutual
/-- `find_vcloud_links`: fields named `url` whose string value contains
`vcloud.zip`, in traversal order. -/
def findJ : Json → List (List Char)
  | .obj fs => findF fs
  | .arr xs => findL xs
  | _ => []
def findL : List Json → List (List Char)
  | [] => []
  | j :: js => findJ j ++ findL js
def findF : List (List Char × Json) → List (List Char)
  | [] => []
  | (k, v) :: fs =>
    match v with
    | .str s => (if k = urlKey ∧ containsSub vcloudMarker s = true then [s] else []) ++ findF fs
    | .arr xs => findL xs ++ findF fs
    | .obj f2 => findF f2 ++ findF fs
    | _ => findF fs
end

def find_vcloud_links (d : Json) : List (List Char) := findJ d

mutual
/-- `update_recursive` inside `update_json_with_results`.  The flag
`rootArr` models the source's list branch, which tests the OUTER `data`
(`elif isinstance(data, list)`) instead of the current node `obj`, so
sequences are only entered when the document root is a sequence. -/
def updJ (rootArr : Bool) (m : List (List Char × List Char)) : Json → Json
  | .obj fs => .obj (updF rootArr m fs)
  | .arr xs => if rootArr then .arr (updL rootArr m xs) else .arr xs
  | j => j
def updL (rootArr : Bool) (m : List (List Char × List Char)) : List Json → List Json
  | [] => []
  | j :: js => updJ rootArr m j :: updL rootArr m js
def updF (rootArr : Bool) (m : List (List Char × List Char)) :
    List (List Char × Json) → List (List Char × Json)
  | [] => []
  | (k, v) :: fs =>
    match v with
    | .str s =>
      match (if k = urlKey ∧ containsSub vcloudMarker s = true then lookupMap m s else none) with
      | some t => (k, Json.str t) :: updF rootArr m fs
      | none => (k, Json.str s) :: updF rootArr m fs
    | .arr xs =>
      (k, if rootArr then Json.arr (updL rootArr m xs) else Json.arr xs) :: updF rootArr m fs
    | .obj f2 => (k, Json.obj (updF rootArr m f2)) :: updF rootArr m fs
    | o => (k, o) :: updF rootArr m fs
end

/-- `update_json_with_results(data, results_map)`. -/
def update_json_with_results (data : Json) (results_map : List (List Char × List Char)) : Json :=
  updJ (isArrJ data) results_map data

mutual
/-- `replace_url_recursive` (the closure in `process_json_file`), for one
`url → start_param` entry: recurses into both mappings and sequences. -/
def replJ (url tok : List Char) : Json → Json
  | .obj fs => .obj (replF url tok fs)
  | .arr xs => .arr (replL url tok xs)
  | j => j
def replL (url tok : List Char) : List Json → List Json
  | [] => []
  | j :: js => replJ url tok j :: replL url tok js
def replF (url tok : List Char) : List (List Char × Json) → List (List Char × Json)
  | [] => []
  | (k, v) :: fs =>
    match v with
    | .str s => (k, if k = urlKey ∧ s = url then Json.str tok else Json.str s) :: replF url tok fs
    | .arr xs => (k, Json.arr (replL url tok xs)) :: replF url tok fs
    | .obj f2 => (k, Json.obj (replF url tok f2)) :: replF url tok fs
    | o => (k, o) :: replF url tok fs
end

def replace_url_recursive (url tok : List Char) (d : Json) : Json := replJ url tok d

/-- The update loop of `process_json_file`: one `replace_url_recursive`
pass per entry of `progress["processed"]`, in order. -/
def replaceAllResults (m : List (List Char × List Char)) (d : Json) : Json :=
  m.foldl (fun acc p => replace_url_recursive p.1 p.2 acc) d

/-! ### Parallel resolution engine with checkpointing (`process_json_file`)

Discovered links already in the loaded checkpoint are filtered out; each
completed task inserts its result when it is not `None` and persists the
checkpoint once either way.  `order` stands for the `as_completed`
completion order, an arbitrary permutation of the submitted links. -/

/-- `[url for url in vcloud_urls if url not in progress["processed"]]`. -/
def unprocessedOf (doc : Json) (p : List (List Char × List Char)) : List (List Char) :=
  (find_vcloud_links doc).filter (fun u => (lookupMap p u).isNone)

/-- One completed task: store the result if it is not `None`. -/
def engineStep (resolve : List Char → Option (List Char))
    (p : List (List Char × List Char)) (u : List Char) : List (List Char × List Char) :=
  match resolve u with
  | some t => insertMap p u t
  | none => p

/-- The completion loop over the submitted links. -/
def runEngine (resolve : List Char → Option (List Char)) :
    List (List Char) → List (List Char × List Char) → List (List Char × List Char)
  | [], p => p
  | u :: rest, p => runEngine resolve rest (engineStep resolve p u)

/-- The completion loop instrumented with the number of `save_progress`
calls (one per completed task, success or failure). -/
def runEngineCount (resolve : List Char → Option (List Char)) :
    List (List Char) → List (List Char × List Char) → List (List Char × List Char) × Nat
  | [], p => (p, 0)
  | u :: rest, p =>
    let x := runEngineCount resolve rest (engineStep resolve p u)
    (x.1, x.2 + 1)

/-! ### Concrete instances used by witnesses and counterexamples -/

/-- A fetch environment whose every response is a redirect. -/
def fetchX : List Char → HttpResponse := fun u => ⟨some ('x' :: u), []⟩

/-- The hop function realised by `fetchX`. -/
def hopX : List Char → List Char := fun u => 'x' :: u

/-- HTML carrying a loose `ampproject` URL before an exact
`.cdn.ampproject.org` URL. -/
def ampHtmlX : List Char :=
  "x https://a.ampproject.org/z https://b.cdn.ampproject.org/q y".data

def ampExactX : List Char := "https://b.cdn.ampproject.org/q".data

/-- A body with `url=` inside `curl=`, not inside any meta-refresh tag. -/
def metaRespX : HttpResponse := ⟨none, "<p>see curl=/next%20page now</p>".data⟩

def metaUrlX : List Char := "http://host/p".data

/-- Page body of the full concrete environment: an anchor plus an AMP URL
whose `foo/` payload decodes to a URL with an `id` parameter. -/
def pageX : List Char :=
  "<a>see https://c-d.cdn.ampproject.org/v/s/foo/aHR0cHM6Ly9ob3N0Lz9pZD1RUSs=/x</a>".data

/-- Landed URL of the full concrete environment: a `/re2/` payload that
decodes to a URL whose `r` parameter decodes to the string `A`. -/
def re2UrlX : List Char := "https://hub.example/re2/aHR0cHM6Ly9oLz9yPVFRPT0=/t".data

/-- An environment on which the whole pipeline succeeds with token `ZZZ9`. -/
def envX : HttpEnv := ⟨fun _ => pageX, fun _ => re2UrlX, fun _ => ⟨none, "start=ZZZ9".data⟩⟩

/-- An environment on which every resolution fails (empty responses). -/
def envNone : HttpEnv := ⟨fun _ => [], fun _ => [], fun _ => ⟨none, []⟩⟩

def c5a : List Char := "https://vcloud.zip/a".data

def c5b : List Char := "https://vcloud.zip/b".data

def c5t1 : List Char := "T1".data

/-- A document discovering the links `c5a` and `c5b`. -/
def c5doc : Json :=
  Json.arr [Json.obj [(urlKey, Json.str c5a)], Json.obj [(urlKey, Json.str c5b)]]

/-- A checkpoint that already resolved `c5a`. -/
def c5p : List (List Char × List Char) := [(c5a, c5t1)]

/-- Document for the C2 failing input: a mapping root holding a sequence
holding a mapping with a resolvable link. -/
def c2doc : Json :=
  Json.obj [("a".data, Json.arr [Json.obj [(urlKey, Json.str c5a)]])]

def c2map : List (List Char × List Char) := [(c5a, "TOK".data)]

def c2expected : Json :=
  Json.obj [("a".data, Json.arr [Json.obj [(urlKey, Json.str ("TOK".data))]])]

/-- A chained mapping: the token of `c5a` is itself a key of the mapping. -/
def c7map : List (List Char × List Char) := [(c5a, c5b), (c5b, "TOK".data)]

def c7doc : Json := Json.obj [(urlKey, Json.str c5a)]

/-- A chain-free mapping for the C7 witness. -/
def c7wmap : List (List Char × List Char) := [(c5a, "TOK".data)]

/-- The first string value of the first field of a mapping (a projection
separating the C7 counterexample's two sides). -/
def firstUrlVal : Json → List Char
  | .obj ((_, .str s) :: _) => s
  | _ => []

def emptyStartUrl : List Char := "http://h/p?start=".data

def scenUrl : List Char := "https://example.com/page?id=9".data

def scenBody : List Char := "<a>click</a> start=ABC123 <b>".data

/-! ### Helper lemmas: checkpoint map and engine -/

theorem lookup_insertMap_self (p : List (List Char × List Char)) (k v : List Char) :
    lookupMap (insertMap p k v) k = some v := by
  induction p with
  | nil => simp [insertMap, lookupMap]
  | cons q rest ih =>
    by_cases h : q.1 = k
    · simp [insertMap, h, lookupMap]
    · simp [insertMap, h, lookupMap, ih]

theorem lookup_insertMap_ne (p : List (List Char × List Char)) (k v u : List Char)
    (h : u ≠ k) : lookupMap (insertMap p k v) u = lookupMap p u := by
  induction p with
  | nil => simp [insertMap, lookupMap, Ne.symm h]
  | cons q rest ih =>
    by_cases hq : q.1 = k
    · subst hq
      have hne : ¬q.1 = u := fun hh => h hh.symm
      simp [insertMap, lookupMap, hne]
    · simp [insertMap, hq, lookupMap, ih]

theorem lookupMap_mem (p : List (List Char × List Char)) (k v : List Char)
    (h : lookupMap p k = some v) : (k, v) ∈ p := by
  induction p with
  | nil => simp [lookupMap] at h
  | cons q rest ih =>
    by_cases hq : q.1 = k
    · simp [lookupMap, hq] at h
      have hh : (k, v) = q := by rw [← hq, ← h]
      rw [hh]
      exact List.mem_cons_self _ _
    · simp [lookupMap, hq] at h
      exact List.mem_cons_of_mem _ (ih h)

/-- The final checkpoint of the completion loop, pointwise: a link in the
completion order with a successful resolution ends at its resolved value;
every other key keeps its prior binding. -/
theorem runEngine_lookup (resolve : List Char → Option (List Char)) :
    ∀ (order : List (List Char)) (p : List (List Char × List Char)) (u : List Char),
      lookupMap (runEngine resolve order p) u =
        if u ∈ order ∧ (resolve u).isSome then resolve u else lookupMap p u := by
  intro order
  induction order with
  | nil => simp [runEngine]
  | cons a rest ih =>
    intro p u
    rw [runEngine, ih]
    by_cases hr : u ∈ rest ∧ (resolve u).isSome
    · simp [hr.1, hr.2]
    · rw [if_neg hr]
      by_cases hu : u = a
      · subst hu
        cases hres : resolve u with
        | none => simp [engineStep, hres] at hr ⊢
        | some t =>
          simp [engineStep, hres, lookup_insertMap_self]
      · have hmem : (u ∈ a :: rest ∧ (resolve u).isSome) ↔ (u ∈ rest ∧ (resolve u).isSome) := by
          simp [List.mem_cons, hu]
        rw [if_congr hmem rfl rfl, if_neg hr]
        cases hres : resolve a with
        | none => simp [engineStep, hres]
        | some t => simp [engineStep, hres, lookup_insertMap_ne _ _ _ _ hu]

theorem runEngineCount_spec (resolve : List Char → Option (List Char)) :
    ∀ (order : List (List Char)) (p : List (List Char × List Char)),
      (runEngineCount resolve order p).2 = order.length
      ∧ (runEngineCount resolve order p).1 = runEngine resolve order p := by
  intro order
  induction order with
  | nil => simp [runEngineCount, runEngine]
  | cons a rest ih =>
    intro p
    simp [runEngineCount, runEngine, ih]

/-! ### Helper lemmas: leftmost-match searches -/

/-- The regex `pat ++ "([^stop]+)"` matches at position `i` of `s`. -/
def capMatchAt (pat : List Char) (stop : Char → Bool) (s : List Char) (i : Nat) : Prop :=
  pat.isPrefixOf (s.drop i) = true
    ∧ ((s.drop i).drop pat.length).takeWhile (fun x => !stop x) ≠ []

/-- `searchCap` with a required non-empty capture succeeds exactly when the
pattern matches somewhere in the string. -/
theorem searchCap_isSome_iff (pat : List Char) (stop : Char → Bool) :
    ∀ s : List Char, (searchCap pat stop true s).isSome ↔ ∃ i, capMatchAt pat stop s i := by
  intro s
  induction s with
  | nil =>
    simp only [searchCap, Option.isSome_none, Bool.false_eq_true, false_iff]
    rintro ⟨i, h1, h2⟩
    simp [List.drop_nil] at h2
  | cons c cs ih =>
    have hshift : ∀ i, capMatchAt pat stop (c :: cs) (i + 1) ↔ capMatchAt pat stop cs i :=
      fun i => Iff.rfl
    have hstep : ¬capMatchAt pat stop (c :: cs) 0 →
        ((searchCap pat stop true cs).isSome ↔ ∃ i, capMatchAt pat stop (c :: cs) i) := by
      intro hnot0
      rw [ih]
      constructor
      · rintro ⟨i, hi⟩
        exact ⟨i + 1, (hshift i).mpr hi⟩
      · rintro ⟨i, hi⟩
        cases i with
        | zero => exact absurd hi hnot0
        | succ j => exact ⟨j, (hshift j).mp hi⟩
    by_cases hp : pat.isPrefixOf (c :: cs) = true
    · by_cases hc : ((c :: cs).drop pat.length).takeWhile (fun x => !stop x) = []
      · have heq : searchCap pat stop true (c :: cs) = searchCap pat stop true cs := by
          rw [searchCap]
          simp [hp, hc]
        rw [heq]
        exact hstep (fun hbad => hbad.2 hc)
      · have heq : searchCap pat stop true (c :: cs)
            = some (((c :: cs).drop pat.length).takeWhile (fun x => !stop x)) := by
          rw [searchCap]
          simp [hp, hc]
        rw [heq]
        simp only [Option.isSome_some, true_iff]
        exact ⟨0, hp, hc⟩
    · have heq : searchCap pat stop true (c :: cs) = searchCap pat stop true cs := by
        rw [searchCap]
        simp [hp]
      rw [heq]
      exact hstep (fun hbad => hp hbad.1)

/-- The AMP regex (exact literal `lit`) matches at position `i` of `s`. -/
def ampMatchAt (lit : List Char) (s : List Char) (i : Nat) : Prop :=
  httpsLit.isPrefixOf (s.drop i) = true
    ∧ containsSub lit (((s.drop i).drop 8).takeWhile ampAllowed) = true

/-- `searchAmp` succeeds exactly when some position carries `https://`
whose allowed run contains the literal. -/
theorem searchAmp_isSome_iff (lit : List Char) :
    ∀ s : List Char, (searchAmp lit s).isSome ↔ ∃ i, ampMatchAt lit s i := by
  intro s
  induction s with
  | nil =>
    simp only [searchAmp, Option.isSome_none, Bool.false_eq_true, false_iff]
    rintro ⟨i, h1, h2⟩
    simp [httpsLit] at h1
  | cons c cs ih =>
    have hshift : ∀ i, ampMatchAt lit (c :: cs) (i + 1) ↔ ampMatchAt lit cs i :=
      fun i => Iff.rfl
    have hstep : ¬ampMatchAt lit (c :: cs) 0 →
        ((searchAmp lit cs).isSome ↔ ∃ i, ampMatchAt lit (c :: cs) i) := by
      intro hnot0
      rw [ih]
      constructor
      · rintro ⟨i, hi⟩
        exact ⟨i + 1, (hshift i).mpr hi⟩
      · rintro ⟨i, hi⟩
        cases i with
        | zero => exact absurd hi hnot0
        | succ j => exact ⟨j, (hshift j).mp hi⟩
    by_cases hp : httpsLit.isPrefixOf (c :: cs) = true
    · by_cases hc : containsSub lit ((cs.drop 7).takeWhile ampAllowed) = true
      · have heq : searchAmp lit (c :: cs)
            = some (httpsLit ++ (cs.drop 7).takeWhile ampAllowed) := by
          rw [searchAmp]
          simp [hp, hc]
        rw [heq]
        simp only [Option.isSome_some, true_iff]
        exact ⟨0, hp, hc⟩
      · have heq : searchAmp lit (c :: cs) = searchAmp lit cs := by
          rw [searchAmp]
          simp [hp, hc]
        rw [heq]
        exact hstep (fun hbad => hc hbad.2)
    · have heq : searchAmp lit (c :: cs) = searchAmp lit cs := by
        rw [searchAmp]
        simp [hp]
      rw [heq]
      exact hstep (fun hbad => hp hbad.1)

/-! ### Helper lemmas: redirect follower -/

/-- `n`-fold application of a hop function. -/
def iterHop (f : List Char → List Char) : Nat → List Char → List Char
  | 0, u => u
  | n + 1, u => iterHop f n (f u)

theorem followLoop_always (fetch : List Char → HttpResponse) (f : List Char → List Char)
    (h : ∀ u, nextHop u (fetch u) = some (f u)) :
    ∀ (fuel : Nat) (url : List Char),
      followLoop fetch fuel url = (iterHop f fuel url, fetch (iterHop f fuel url)) := by
  intro fuel
  induction fuel with
  | zero => intro url; rw [followLoop]; simp [h url, iterHop]
  | succ n ih => intro url; rw [followLoop]; simp [h url, iterHop, ih (f url)]

theorem followTrace_always_len (fetch : List Char → HttpResponse) (f : List Char → List Char)
    (h : ∀ u, nextHop u (fetch u) = some (f u)) :
    ∀ (fuel : Nat) (url : List Char), (followTrace fetch fuel url).length = fuel + 1 := by
  intro fuel
  induction fuel with
  | zero => intro url; rw [followTrace]; simp [h url]
  | succ n ih => intro url; rw [followTrace]; simp [h url, ih (f url)]

theorem followTrace_len_le (fetch : List Char → HttpResponse) :
    ∀ (fuel : Nat) (url : List Char), (followTrace fetch fuel url).length ≤ fuel + 1 := by
  intro fuel
  induction fuel with
  | zero =>
    intro url
    rw [followTrace]
    cases nextHop url (fetch url) <;> simp
  | succ n ih =>
    intro url
    rw [followTrace]
    cases nextHop url (fetch url) with
    | none => simp
    | some nxt =>
      simp only [List.length_cons]
      exact Nat.succ_le_succ (ih nxt)

/-! ### Helper lemmas: document updater idempotence -/

theorem isArrJ_updJ (b : Bool) (m : List (List Char × List Char)) :
    ∀ d : Json, isArrJ (updJ b m d) = isArrJ d := by
  intro d
  cases d with
  | arr xs => cases b <;> simp [updJ, isArrJ]
  | obj fs => simp [updJ, isArrJ]
  | null => rfl
  | bool x => rfl
  | num n => rfl
  | str s => rfl

mutual
theorem updJ_idem (b : Bool) (m : List (List Char × List Char))
    (hm : ∀ p ∈ m, containsSub vcloudMarker p.2 = true → lookupMap m p.2 = none) :
    ∀ j : Json, updJ b m (updJ b m j) = updJ b m j
  | .null => rfl
  | .bool x => rfl
  | .num x => rfl
  | .str s => rfl
  | .arr xs => by
    cases b with
    | false => rfl
    | true => simp only [updJ, if_true]; rw [updL_idem true m hm xs]
  | .obj fs => by
    simp only [updJ]
    rw [updF_idem b m hm fs]
theorem updL_idem (b : Bool) (m : List (List Char × List Char))
    (hm : ∀ p ∈ m, containsSub vcloudMarker p.2 = true → lookupMap m p.2 = none) :
    ∀ xs : List Json, updL b m (updL b m xs) = updL b m xs
  | [] => rfl
  | j :: js => by
    simp only [updL]
    rw [updJ_idem b m hm j, updL_idem b m hm js]
theorem updF_idem (b : Bool) (m : List (List Char × List Char))
    (hm : ∀ p ∈ m, containsSub vcloudMarker p.2 = true → lookupMap m p.2 = none) :
    ∀ fs : List (List Char × Json), updF b m (updF b m fs) = updF b m fs
  | [] => rfl
  | (k, v) :: fs => by
    cases v with
    | str s =>
      cases hsome :
          (if k = urlKey ∧ containsSub vcloudMarker s = true then lookupMap m s else none) with
      | none =>
        have h1 : updF b m ((k, Json.str s) :: fs) = (k, Json.str s) :: updF b m fs := by
          simp only [updF, hsome]
        have h2 : updF b m ((k, Json.str s) :: updF b m fs)
            = (k, Json.str s) :: updF b m (updF b m fs) := by
          simp only [updF, hsome]
        rw [h1, h2, updF_idem b m hm fs]
      | some t =>
        have hcond : k = urlKey ∧ containsSub vcloudMarker s = true := by
          by_contra hnc
          rw [if_neg hnc] at hsome
          exact Option.noConfusion hsome
        rw [if_pos hcond] at hsome
        have h1 : updF b m ((k, Json.str s) :: fs) = (k, Json.str t) :: updF b m fs := by
          simp only [updF, if_pos hcond, hsome]
        have hguard2 :
            (if k = urlKey ∧ containsSub vcloudMarker t = true then lookupMap m t else none)
              = none := by
          by_cases hk : k = urlKey ∧ containsSub vcloudMarker t = true
          · rw [if_pos hk]
            exact hm (s, t) (lookupMap_mem m s t hsome) hk.2
          · exact if_neg hk
        have h2 : updF b m ((k, Json.str t) :: updF b m fs)
            = (k, Json.str t) :: updF b m (updF b m fs) := by
          simp only [updF, hguard2]
        rw [h1, h2, updF_idem b m hm fs]
    | arr xs =>
      cases b with
      | false =>
        have h1 : updF false m ((k, Json.arr xs) :: fs)
            = (k, Json.arr xs) :: updF false m fs := by
          simp [updF]
        have h2 : updF false m ((k, Json.arr xs) :: updF false m fs)
            = (k, Json.arr xs) :: updF false m (updF false m fs) := by
          simp [updF]
        rw [h1, h2, updF_idem false m hm fs]
      | true =>
        have h1 : updF true m ((k, Json.arr xs) :: fs)
            = (k, Json.arr (updL true m xs)) :: updF true m fs := by
          simp [updF]
        have h2 : updF true m ((k, Json.arr (updL true m xs)) :: updF true m fs)
            = (k, Json.arr (updL true m (updL true m xs))) :: updF true m (updF true m fs) := by
          simp [updF]
        rw [h1, h2, updL_idem true m hm xs, updF_idem true m hm fs]
    | obj f2 =>
      have h1 : updF b m ((k, Json.obj f2) :: fs)
          = (k, Json.obj (updF b m f2)) :: updF b m fs := by
        simp only [updF]
      have h2 : updF b m ((k, Json.obj (updF b m f2)) :: updF b m fs)
          = (k, Json.obj (updF b m (updF b m f2))) :: updF b m (updF b m fs) := by
        simp only [updF]
      rw [h1, h2, updF_idem b m hm f2, updF_idem b m hm fs]
    | null =>
      have h1 : updF b m ((k, Json.null) :: fs) = (k, Json.null) :: updF b m fs := by
        simp only [updF]
      have h2 : updF b m ((k, Json.null) :: updF b m fs)
          = (k, Json.null) :: updF b m (updF b m fs) := by
        simp only [updF]
      rw [h1, h2, updF_idem b m hm fs]
    | bool x =>
      have h1 : updF b m ((k, Json.bool x) :: fs) = (k, Json.bool x) :: updF b m fs := by
        simp only [updF]
      have h2 : updF b m ((k, Json.bool x) :: updF b m fs)
          = (k, Json.bool x) :: updF b m (updF b m fs) := by
        simp only [updF]
      rw [h1, h2, updF_idem b m hm fs]
    | num n =>
      have h1 : updF b m ((k, Json.num n) :: fs) = (k, Json.num n) :: updF b m fs := by
        simp only [updF]
      have h2 : updF b m ((k, Json.num n) :: updF b m fs)
          = (k, Json.num n) :: updF b m (updF b m fs) := by
        simp only [updF]
      rw [h1, h2, updF_idem b m hm fs]
end

/-! ### Claim theorems -/

/-- Claim C1 (code-bug evidence): the decode the source applies to the
`/re2/` payload and to the `r` parameter is `unquote_plus`, which follows
plus-as-space HTML-form semantics: a literal `+` in a percent-encoded
input becomes a space — corrupting a base64 payload such as `+w==` so that
its base64 decode fails — whereas the plus-literal decode `unquote` keeps
the payload intact; only the `%2B` escape form of `+` survives. -/
theorem claim_C1 :
    unquote_plus ("+w==".data) = (" w==".data)
    ∧ b64decode (unquote_plus ("+w==".data)) = none
    ∧ unquote ("+w==".data) = ("+w==".data)
    ∧ b64decode (unquote ("+w==".data)) = some [251]
    ∧ unquote_plus ("%2B".data) = ("+".data)
    ∧ unquote_plus ("a+b".data) = ("a b".data) :=
  ⟨by decide, by decide, by decide, by decide, by decide, by decide⟩

/-- Claim C2 (code-bug evidence): on the mapping-rooted document `c2doc`
holding a sequence with a resolvable link, `update_json_with_results`
returns the document unchanged — its sequence branch tests the document
root (`data`) instead of the current node (`obj`) — while the engine's
`replace_url_recursive` loop over the same mapping rewrites the link, as
the specified traversal requires. -/
theorem claim_C2 :
    update_json_with_results c2doc c2map = c2doc
    ∧ replaceAllResults c2map c2doc = c2expected :=
  ⟨rfl, rfl⟩

/-- Claim C3 counterexample: the terminal URL carries a `start` query
parameter (its parsed query is literally `start=`), yet with an empty body
extraction fails instead of returning the parameter's (empty) value,
because `parse_qs` drops blank values and the two fallbacks require a
non-empty match. -/
theorem claim_C3_counterexample :
    (urlsplit emptyStartUrl).query = startEqPat ∧ extractStart emptyStartUrl [] = none :=
  ⟨by decide, by decide⟩

/-- Claim C3 (amended): extraction follows the priority order (a) first
`start` query parameter of the terminal URL with a NON-EMPTY value, (b)
else the first matchable `start=` occurrence in the body, percent-decoded,
(c) else a raw `[?&]start=` match on the terminal URL text,
percent-decoded; and it fails exactly when all three are absent. -/
theorem claim_C3 :
    (∀ url body v, startFromUrl url = some v → extractStart url body = some v)
    ∧ (∀ url body cap, startFromUrl url = none →
        searchCap startEqPat qStop true body = some cap →
        extractStart url body = some (unquote cap))
    ∧ (∀ url body, startFromUrl url = none → (∃ i, capMatchAt startEqPat qStop body i) →
        (extractStart url body).isSome)
    ∧ (∀ url body cap, startFromUrl url = none →
        searchCap startEqPat qStop true body = none →
        searchParam startName qStopHash true url = some cap →
        extractStart url body = some (unquote cap))
    ∧ ∀ url body, extractStart url body = none ↔
        startFromUrl url = none ∧ searchCap startEqPat qStop true body = none
          ∧ searchParam startName qStopHash true url = none := by
  refine ⟨?_, ?_, ?_, ?_, ?_⟩
  · intro url body v h
    simp [extractStart, h]
  · intro url body cap h1 h2
    simp [extractStart, h1, h2]
  · intro url body h1 h2
    obtain ⟨cap, hcap⟩ :=
      Option.isSome_iff_exists.mp ((searchCap_isSome_iff startEqPat qStop body).mpr h2)
    simp [extractStart, h1, hcap]
  · intro url body cap h1 h2 h3
    simp [extractStart, h1, h2, h3]
  · intro url body
    constructor
    · intro h
      cases h1 : startFromUrl url with
      | some v => simp [extractStart, h1] at h
      | none =>
        cases h2 : searchCap startEqPat qStop true body with
        | some cap => simp [extractStart, h1, h2] at h
        | none =>
          cases h3 : searchParam startName qStopHash true url with
          | some cap => simp [extractStart, h1, h2, h3] at h
          | none => exact ⟨rfl, rfl, rfl⟩
    · rintro ⟨h1, h2, h3⟩
      simp [extractStart, h1, h2, h3]

/-- Claim C3 witness: the claim's own scenario — a terminal URL without a
`start` query parameter and a body containing `start=ABC123` yields
`ABC123`. -/
theorem claim_C3_witness : extractStart scenUrl scenBody = some ("ABC123".data) := by
  have h := claim_C3.2.1 scenUrl scenBody ("ABC123".data) (by decide) (by decide)
  rw [h]
  decide

/-- Claim C4: the redirect follower makes at most 10 requests in every
environment; and in any environment whose every response redirects (with
hop function `f`), it makes exactly 10 requests, stops, and proceeds to
token extraction on the last-fetched response — reaching the bound is not
a failure. -/
theorem claim_C4 :
    (∀ (fetch : List Char → HttpResponse) (url : List Char),
      (followTrace fetch 9 url).length ≤ 10)
    ∧ ∀ (fetch : List Char → HttpResponse) (f : List Char → List Char),
        (∀ u, nextHop u (fetch u) = some (f u)) →
        ∀ url : List Char,
          (followTrace fetch 9 url).length = 10
          ∧ followLoop fetch 9 url = (iterHop f 9 url, fetch (iterHop f 9 url))
          ∧ follow_redirect_chain_and_extract_start fetch url
              = extractStart (iterHop f 9 url) (fetch (iterHop f 9 url)).text := by
  constructor
  · intro fetch url
    exact followTrace_len_le fetch 9 url
  · intro fetch f h url
    refine ⟨followTrace_always_len fetch f h 9 url, followLoop_always fetch f h 9 url, ?_⟩
    rw [follow_redirect_chain_and_extract_start, followLoop_always fetch f h 9 url]

/-- Claim C4 witness: in the always-redirecting environment `fetchX` the
follower makes exactly 10 requests and then extracts from the last
response. -/
theorem claim_C4_witness :
    (followTrace fetchX 9 ("a".data)).length = 10
    ∧ follow_redirect_chain_and_extract_start fetchX ("a".data)
        = extractStart (iterHop hopX 9 ("a".data)) [] := by
  have h := claim_C4.2 fetchX hopX (fun u => rfl) ("a".data)
  exact ⟨h.1, h.2.2⟩

/-- Claim C5: a resumed run submits exactly the discovered links absent
from the loaded checkpoint; for every completion order of those
submissions, every old checkpoint entry survives unchanged, and the final
checkpoint is the union of the old entries with the newly resolved ones
(unresolved submissions add nothing). -/
theorem claim_C5 (doc : Json) (p : List (List Char × List Char)) (env : HttpEnv)
    (order : List (List Char)) (hperm : order.Perm (unprocessedOf doc p)) :
    (∀ u, u ∈ unprocessedOf doc p ↔ u ∈ find_vcloud_links doc ∧ lookupMap p u = none)
    ∧ (∀ u t, lookupMap p u = some t →
        lookupMap (runEngine (process_vcloud_link env) order p) u = some t)
    ∧ ∀ u, lookupMap p u = none →
        lookupMap (runEngine (process_vcloud_link env) order p) u
          = if u ∈ unprocessedOf doc p then process_vcloud_link env u else none := by
  refine ⟨?_, ?_, ?_⟩
  · intro u
    simp [unprocessedOf, List.mem_filter, Option.isNone_iff_eq_none]
  · intro u t h
    rw [runEngine_lookup]
    have hnot : u ∉ order := by
      intro hmem
      have h2 : u ∈ unprocessedOf doc p := hperm.mem_iff.mp hmem
      rw [unprocessedOf, List.mem_filter] at h2
      rw [h] at h2
      simp at h2
    simp [hnot, h]
  · intro u h
    rw [runEngine_lookup]
    by_cases hmem : u ∈ order
    · have hu : u ∈ unprocessedOf doc p := hperm.mem_iff.mp hmem
      rw [if_pos hu]
      cases hres : process_vcloud_link env u with
      | some t => simp [hmem, hres]
      | none => simp [hmem, hres, h]
    · have hu : u ∉ unprocessedOf doc p := fun hh => hmem (hperm.mem_iff.mpr hh)
      rw [if_neg hu]
      simp [hmem, h]

/-- Claim C5 witness: with checkpoint `c5p` (holding `c5a`) over document
`c5doc` (discovering `c5a` and `c5b`) in the environment `envX`, the run
keeps the old entry for `c5a` and adds the newly resolved `ZZZ9` for
`c5b`. -/
theorem claim_C5_witness :
    lookupMap (runEngine (process_vcloud_link envX) (unprocessedOf c5doc c5p) c5p) c5a
        = some c5t1
    ∧ lookupMap (runEngine (process_vcloud_link envX) (unprocessedOf c5doc c5p) c5p) c5b
        = some ("ZZZ9".data) := by
  have h := claim_C5 c5doc c5p envX (unprocessedOf c5doc c5p) (List.Perm.refl _)
  constructor
  · exact h.2.1 c5a c5t1 (by decide)
  · have h2 := h.2.2 c5b (by decide)
    rw [h2]
    decide

/-- Claim C6: a link whose resolution fails contributes no checkpoint
entry: its binding after the run equals its binding before the run, and a
discovered link unresolved before the run is still unprocessed afterwards,
so the next invocation submits it again. -/
theorem claim_C6 (env : HttpEnv) (order : List (List Char))
    (p : List (List Char × List Char)) (doc : Json) (u : List Char)
    (hfail : process_vcloud_link env u = none) :
    lookupMap (runEngine (process_vcloud_link env) order p) u = lookupMap p u
    ∧ (u ∈ find_vcloud_links doc → lookupMap p u = none →
        u ∈ unprocessedOf doc (runEngine (process_vcloud_link env) order p)) := by
  have h1 : lookupMap (runEngine (process_vcloud_link env) order p) u = lookupMap p u := by
    rw [runEngine_lookup]
    simp [hfail]
  refine ⟨h1, ?_⟩
  intro hd hnone
  rw [unprocessedOf, List.mem_filter]
  exact ⟨hd, by simp [h1, hnone]⟩

/-- Claim C6 witness: in the failing environment `envNone` the submitted
link `c5b` gains no checkpoint entry and remains unprocessed for the next
run. -/
theorem claim_C6_witness :
    lookupMap (runEngine (process_vcloud_link envNone) (unprocessedOf c5doc c5p) c5p) c5b
        = none
    ∧ c5b ∈ unprocessedOf c5doc
        (runEngine (process_vcloud_link envNone) (unprocessedOf c5doc c5p) c5p) := by
  have h := claim_C6 envNone (unprocessedOf c5doc c5p) c5p c5doc c5b (by decide)
  refine ⟨?_, h.2 (by decide) (by decide)⟩
  rw [h.1]
  decide

/-- Claim C7 counterexample: with the chained mapping `c7map` — the
resolved token of `c5a` is the link `c5b`, itself a key of the mapping —
one updater pass rewrites the `url` field to `c5b` and a second pass
rewrites it on to `TOK`, so two passes differ from one. -/
theorem claim_C7_counterexample :
    update_json_with_results (update_json_with_results c7doc c7map) c7map
      ≠ update_json_with_results c7doc c7map := by
  intro h
  exact absurd (congrArg firstUrlVal h) (by decide)

/-- Claim C7 (amended): the document updater is idempotent for every
document and every resolution mapping in which no resolved token both
contains the `vcloud.zip` marker and is itself a key of the mapping — in
particular for every mapping whose tokens are not themselves source
links. -/
theorem claim_C7 (m : List (List Char × List Char)) (d : Json)
    (hm : ∀ p ∈ m, containsSub vcloudMarker p.2 = true → lookupMap m p.2 = none) :
    update_json_with_results (update_json_with_results d m) m
      = update_json_with_results d m := by
  rw [update_json_with_results, update_json_with_results, isArrJ_updJ]
  exact updJ_idem (isArrJ d) m hm d

/-- Claim C7 witness: idempotence at `c7doc` with the chain-free mapping
`c7wmap`. -/
theorem claim_C7_witness :
    update_json_with_results (update_json_with_results c7doc c7wmap) c7wmap
      = update_json_with_results c7doc c7wmap :=
  claim_C7 c7wmap c7doc (by decide)

/-- Claim C8: AMP extraction selects an exact `.cdn.ampproject.org` match
whenever one exists, otherwise falls back to the first loose `ampproject`
match, and fails exactly when neither regex matches anywhere in the
body. -/
theorem claim_C8 :
    (∀ html a, searchAmp cdnLit html = some a → getAmpUrl html = some a)
    ∧ (∀ html, searchAmp cdnLit html = none → getAmpUrl html = searchAmp ampLit html)
    ∧ ∀ html, getAmpUrl html = none ↔
        (¬∃ i, ampMatchAt cdnLit html i) ∧ ¬∃ i, ampMatchAt ampLit html i := by
  refine ⟨?_, ?_, ?_⟩
  · intro html a h
    simp [getAmpUrl, h]
  · intro html h
    simp [getAmpUrl, h]
  · intro html
    constructor
    · intro h
      cases h1 : searchAmp cdnLit html with
      | some a => simp [getAmpUrl, h1] at h
      | none =>
        simp only [getAmpUrl, h1] at h
        refine ⟨fun hex => ?_, fun hex => ?_⟩
        · have h2 := (searchAmp_isSome_iff cdnLit html).mpr hex
          rw [h1] at h2
          simp at h2
        · have h2 := (searchAmp_isSome_iff ampLit html).mpr hex
          rw [h] at h2
          simp at h2
    · rintro ⟨hn1, hn2⟩
      have e1 : searchAmp cdnLit html = none := by
        cases hh : searchAmp cdnLit html with
        | none => rfl
        | some a => exact absurd ((searchAmp_isSome_iff cdnLit html).mp (by simp [hh])) hn1
      have e2 : searchAmp ampLit html = none := by
        cases hh : searchAmp ampLit html with
        | none => rfl
        | some a => exact absurd ((searchAmp_isSome_iff ampLit html).mp (by simp [hh])) hn2
      simp [getAmpUrl, e1, e2]

/-- Claim C8 witness: in `ampHtmlX` a loose `ampproject` URL precedes an
exact `.cdn.ampproject.org` URL, and the exact one is selected. -/
theorem claim_C8_witness : getAmpUrl ampHtmlX = some ampExactX :=
  claim_C8.1 ampHtmlX ampExactX (by decide)

/-- Claim C9: `process_vcloud_link` is total over outcomes — it returns
`some` token exactly when the underlying pipeline succeeds and `none`
exactly when the pipeline raises, never propagating an error to the
engine — and the completion loop persists the checkpoint exactly once per
submitted link. -/
theorem claim_C9 :
    (∀ (env : HttpEnv) (u : List Char),
      (∃ e, resolvePipeline env u = Except.error e ∧ process_vcloud_link env u = none)
      ∨ ∃ t, resolvePipeline env u = Except.ok t ∧ process_vcloud_link env u = some t)
    ∧ ∀ (resolve : List Char → Option (List Char)) (order : List (List Char))
        (p : List (List Char × List Char)),
        (runEngineCount resolve order p).2 = order.length
        ∧ (runEngineCount resolve order p).1 = runEngine resolve order p := by
  constructor
  · intro env u
    cases h : resolvePipeline env u with
    | error e => exact Or.inl ⟨e, rfl, by simp [process_vcloud_link, h]⟩
    | ok t => exact Or.inr ⟨t, rfl, by simp [process_vcloud_link, h]⟩
  · intro resolve order p
    exact runEngineCount_spec resolve order p

/-- Claim C10: a response without a redirect header whose body contains a
matchable `url=` occurrence anywhere — in any context, not only inside a
meta-refresh directive — is treated as a redirect: the captured value is
percent-decoded, resolved against the response's scheme and host when not
absolute, and adopted by the loop as the next URL. -/
theorem claim_C10 :
    (∀ (reqUrl : List Char) (r : HttpResponse) (cap : List Char),
      r.location = none → searchCap urlEqPat qStop true r.text = some cap →
      nextHop reqUrl r = some (metaResolve reqUrl cap))
    ∧ (∀ (reqUrl : List Char) (r : HttpResponse),
        r.location = none → (∃ i, capMatchAt urlEqPat qStop r.text i) →
        (nextHop reqUrl r).isSome)
    ∧ ∀ (fetch : List Char → HttpResponse) (fuel : Nat) (url nxt : List Char),
        nextHop url (fetch url) = some nxt →
        followLoop fetch (fuel + 1) url = followLoop fetch fuel nxt := by
  refine ⟨?_, ?_, ?_⟩
  · intro reqUrl r cap hloc hcap
    simp [nextHop, hloc, hcap]
  · intro reqUrl r hloc hex
    obtain ⟨cap, hcap⟩ :=
      Option.isSome_iff_exists.mp ((searchCap_isSome_iff urlEqPat qStop r.text).mpr hex)
    simp [nextHop, hloc, hcap]
  · intro fetch fuel url nxt h
    rw [followLoop]
    simp [h]

/-- Claim C10 witness: the body of `metaRespX` has `url=` only inside the
word `curl=` and no meta-refresh tag, yet the relative capture
`/next%20page` is percent-decoded, resolved against `http://host`, and
adopted as the next URL. -/
theorem claim_C10_witness :
    nextHop metaUrlX metaRespX = some ("http://host/next page".data) := by
  have h := claim_C10.1 metaUrlX metaRespX ("/next%20page".data) rfl (by decide)
  rw [h]
  decide
